import Mathlib

/-!
Verification development for the swordfight-cli terminal front-end.

The JavaScript source is shallowly embedded: each pure fragment of the
code becomes a Lean function, stateful handlers become explicit
state-passing functions, terminal side effects (log lines, redraw calls,
promise resolution) are reified as data in the returned outcome values,
and JavaScript numbers are modelled as exact rationals / integers.
-/

namespace Swordfight

/-! ## Selection engine (src/lib/display/moveSelector.js, characterSelector.js)

The raw-keypress callback `onKeyPress` of `interactiveSelection` is
embedded as a step function on the session state.  The rendering helper
`redrawMoveInterface` returns a recomputed scroll offset that depends on
text layout; it is abstracted as an oracle parameter `redraw` taking the
selected index and the current scroll offset.  A keypress outcome records
the new session state, whether a redraw was issued, whether the promise
resolves (with the confirmation delay in milliseconds and the resolved
item index), and whether the process exits. -/

inductive Key where
  | digit (d : Nat)
  | enter
  | up
  | down
  | pageUp
  | pageDown
  | ctrlC
  | other
deriving DecidableEq

structure SelState where
  selectedIndex : Nat
  scrollOffset : Nat
deriving DecidableEq

structure KeyOutcome where
  state : SelState
  redrew : Bool
  resolves : Option (Nat × Nat)
  exits : Bool
deriving DecidableEq

/-- `onKeyPress` of `MoveSelector.interactiveSelection`
(src/lib/display/moveSelector.js lines 209-307).  `numMoves` is
`orderedMoves.length`, `termHeight` is `gameDisplay.terminalHeight`. -/
def moveSelectorStep (redraw : Nat → Nat → Nat) (numMoves termHeight : Nat)
    (s : SelState) (k : Key) : KeyOutcome :=
  match k with
  | .digit d =>
      if 1 ≤ d ∧ d ≤ 9 then
        let inputIndex := d - 1
        if inputIndex < numMoves then
          ⟨⟨inputIndex, redraw inputIndex s.scrollOffset⟩, true, some (200, inputIndex), false⟩
        else
          ⟨s, false, none, false⟩
      else if d = 0 ∧ 10 ≤ numMoves then
        ⟨⟨9, redraw 9 s.scrollOffset⟩, true, some (200, 9), false⟩
      else
        ⟨s, false, none, false⟩
  | .enter => ⟨s, false, some (0, s.selectedIndex), false⟩
  | .up =>
      if 0 < s.selectedIndex then
        let i := s.selectedIndex - 1
        ⟨⟨i, redraw i s.scrollOffset⟩, true, none, false⟩
      else
        ⟨s, false, none, false⟩
  | .down =>
      if s.selectedIndex < numMoves - 1 then
        let i := s.selectedIndex + 1
        ⟨⟨i, redraw i s.scrollOffset⟩, true, none, false⟩
      else
        ⟨s, false, none, false⟩
  | .pageUp =>
      let pageSize := Nat.max 1 (termHeight - 10)
      let off := s.scrollOffset - pageSize
      ⟨⟨s.selectedIndex, redraw s.selectedIndex off⟩, true, none, false⟩
  | .pageDown =>
      let pageSize := Nat.max 1 (termHeight - 10)
      let off := s.scrollOffset + pageSize
      ⟨⟨s.selectedIndex, redraw s.selectedIndex off⟩, true, none, false⟩
  | .ctrlC => ⟨s, false, none, true⟩
  | .other => ⟨s, false, none, false⟩

/-- `onKeyPress` of `CharacterSelector.interactiveSelection`
(src/lib/display/characterSelector.js lines 91-152).  The character
selector has no scroll offset, no page keys and no handling for the
key `0`; the outcome reuses `KeyOutcome` with a constant offset `0`. -/
def charSelectorStep (numChars : Nat) (idx : Nat) (k : Key) : KeyOutcome :=
  match k with
  | .digit d =>
      if 1 ≤ d ∧ d ≤ 9 then
        let inputIndex := d - 1
        if inputIndex < numChars then
          ⟨⟨inputIndex, 0⟩, true, some (200, inputIndex), false⟩
        else
          ⟨⟨idx, 0⟩, false, none, false⟩
      else
        ⟨⟨idx, 0⟩, false, none, false⟩
  | .enter => ⟨⟨idx, 0⟩, false, some (0, idx), false⟩
  | .up =>
      if 0 < idx then ⟨⟨idx - 1, 0⟩, true, none, false⟩
      else ⟨⟨idx, 0⟩, false, none, false⟩
  | .down =>
      if idx < numChars - 1 then ⟨⟨idx + 1, 0⟩, true, none, false⟩
      else ⟨⟨idx, 0⟩, false, none, false⟩
  | .ctrlC => ⟨⟨idx, 0⟩, false, none, true⟩
  | _ => ⟨⟨idx, 0⟩, false, none, false⟩

/-- The item a finished selection session hands to the resolver:
`orderedMoves[selectedIndex]` at resolution time. -/
def resolvedItem {α : Type} (items : List α) (o : KeyOutcome) : Option α :=
  o.resolves.bind (fun p => items.get? p.2)

/-! ## Health bar (src/lib/display/gameDisplay.js lines 57-67)

`createHealthBar` is embedded over exact rationals.  The returned string
is `color(filled copies of the full block) + dim(empty copies of the
light block)`; it is modelled by the two segment counts together with
the chosen color tier. -/

inductive HealthTier where
  | low
  | mid
  | high
deriving DecidableEq

structure HealthBar where
  filled : ℤ
  empty : ℤ
  tier : HealthTier
deriving DecidableEq

/-- `GameDisplay.createHealthBar(current, max, length)`: the percentage is
`Math.max(0, current / max)` (clamped below only), `filled` is
`Math.round(percentage * length)`, `empty` is
`Math.max(0, length - filled)`, and the color is red when the percentage
is at most 0.3, yellow when at most 0.6, green otherwise. -/
def createHealthBar (current maxHp : ℚ) (length : ℕ) : HealthBar :=
  let percentage : ℚ := max 0 (current / maxHp)
  let filled : ℤ := round (percentage * (length : ℚ))
  let empty : ℤ := max 0 ((length : ℤ) - filled)
  let tier : HealthTier :=
    if percentage ≤ 3/10 then .low
    else if percentage ≤ 6/10 then .mid
    else .high
  ⟨filled, empty, tier⟩

/-- The filled-segment count the specification prescribes:
`round(length * clamp(current/max, 0, 1))`, clamped on both sides. -/
def specHealthBarFilled (current maxHp : ℚ) (length : ℕ) : ℤ :=
  round ((length : ℚ) * min 1 (max 0 (current / maxHp)))

/-- `round` is monotone on the rationals. -/
theorem roundMonotone {x y : ℚ} (h : x ≤ y) : round x ≤ round y := by
  rw [round_eq, round_eq]
  exact Int.floor_mono (by linarith)

/-- Claim C1: the claim asserts that arrow navigation wraps at the
boundaries.  It does not: with two items, Down from index 1 leaves the
index at 1 (not 0), and Up from index 0 leaves it at 0 (not 1), in both
the move selector and the character selector. -/
theorem selectionWrap_counterexample :
    (moveSelectorStep (fun _ o => o) 2 24 ⟨1, 0⟩ Key.down).state.selectedIndex = 1 ∧
    (moveSelectorStep (fun _ o => o) 2 24 ⟨0, 0⟩ Key.up).state.selectedIndex = 0 ∧
    (charSelectorStep 2 1 Key.down).state.selectedIndex = 1 ∧
    (charSelectorStep 2 0 Key.up).state.selectedIndex = 0 ∧
    ¬ ((moveSelectorStep (fun _ o => o) 2 24 ⟨1, 0⟩ Key.down).state.selectedIndex = 0 ∧
       (moveSelectorStep (fun _ o => o) 2 24 ⟨0, 0⟩ Key.up).state.selectedIndex = 2 - 1) := by
  decide

/-- Claim C1 (amended): over N ≥ 1 items, Down moves the highlight
forward by 1 only while below index N-1 and Up moves it back by 1 only
while above 0; at the boundaries the keypress is a complete no-op (the
index clamps, it does not wrap), in both selectors. -/
theorem selection_navigation_clamps (redraw : Nat → Nat → Nat)
    (numMoves termHeight : Nat) (s : SelState) (hn : 1 ≤ numMoves) :
    ((moveSelectorStep redraw numMoves termHeight s Key.down).state.selectedIndex =
      if s.selectedIndex < numMoves - 1 then s.selectedIndex + 1 else s.selectedIndex) ∧
    ((moveSelectorStep redraw numMoves termHeight s Key.up).state.selectedIndex =
      if 0 < s.selectedIndex then s.selectedIndex - 1 else s.selectedIndex) ∧
    (s.selectedIndex = numMoves - 1 →
      moveSelectorStep redraw numMoves termHeight s Key.down = ⟨s, false, none, false⟩) ∧
    (s.selectedIndex = 0 →
      moveSelectorStep redraw numMoves termHeight s Key.up = ⟨s, false, none, false⟩) ∧
    ((charSelectorStep numMoves s.selectedIndex Key.down).state.selectedIndex =
      if s.selectedIndex < numMoves - 1 then s.selectedIndex + 1 else s.selectedIndex) ∧
    ((charSelectorStep numMoves s.selectedIndex Key.up).state.selectedIndex =
      if 0 < s.selectedIndex then s.selectedIndex - 1 else s.selectedIndex) := by
  refine ⟨?_, ?_, ?_, ?_, ?_, ?_⟩
  · simp only [moveSelectorStep]
    split <;> simp [*]
  · simp only [moveSelectorStep]
    split <;> simp [*]
  · intro h
    simp only [moveSelectorStep]
    rw [if_neg (by omega)]
  · intro h
    simp only [moveSelectorStep]
    rw [if_neg (by omega)]
  · simp only [charSelectorStep]
    split <;> simp [*]
  · simp only [charSelectorStep]
    split <;> simp [*]

theorem selection_navigation_clamps_witness :
    1 ≤ 3 ∧
    moveSelectorStep (fun _ o => o) 3 24 ⟨2, 0⟩ Key.down = ⟨⟨2, 0⟩, false, none, false⟩ := by
  have h := selection_navigation_clamps (fun _ o => o) 3 24 ⟨2, 0⟩ (by decide)
  exact ⟨by decide, h.2.2.1 (by decide)⟩

/-- Claim C6: pressing digit key k (1 ≤ k ≤ 9, k ≤ N) sets the highlight
to index k-1 and resolves the session with items[k-1] after a 200 ms
confirmation delay; pressing 0 with at least 10 items resolves with the
10th item (index 9) after the same delay. -/
theorem digit_jump_selects {α : Type} (redraw : Nat → Nat → Nat) (termHeight : Nat)
    (items : List α) (s : SelState) (k : Nat)
    (h1 : 1 ≤ k) (h9 : k ≤ 9) (hn : k ≤ items.length) :
    (moveSelectorStep redraw items.length termHeight s (Key.digit k)).resolves =
      some (200, k - 1) ∧
    (moveSelectorStep redraw items.length termHeight s (Key.digit k)).state.selectedIndex =
      k - 1 ∧
    resolvedItem items (moveSelectorStep redraw items.length termHeight s (Key.digit k)) =
      items.get? (k - 1) ∧
    (items.get? (k - 1)).isSome = true ∧
    (10 ≤ items.length →
      (moveSelectorStep redraw items.length termHeight s (Key.digit 0)).resolves =
        some (200, 9) ∧
      resolvedItem items (moveSelectorStep redraw items.length termHeight s (Key.digit 0)) =
        items.get? 9) := by
  have hk : k - 1 < items.length := by omega
  have hbranch : (1 ≤ k ∧ k ≤ 9) := ⟨h1, h9⟩
  refine ⟨?_, ?_, ?_, ?_, ?_⟩
  · simp only [moveSelectorStep, if_pos hbranch, if_pos hk]
  · simp only [moveSelectorStep, if_pos hbranch, if_pos hk]
  · simp only [moveSelectorStep, if_pos hbranch, if_pos hk, resolvedItem, Option.some_bind]
  · rw [List.get?_eq_get hk]
    rfl
  · intro h10
    have hb0 : ¬ (1 ≤ 0 ∧ 0 ≤ 9) := by omega
    constructor
    · simp [moveSelectorStep, hb0, h10]
    · simp [moveSelectorStep, hb0, h10, resolvedItem]

theorem digit_jump_selects_witness :
    (1 ≤ 2 ∧ 2 ≤ 9 ∧ 2 ≤ (List.range 10).length) ∧
    (moveSelectorStep (fun _ o => o) (List.range 10).length 24 ⟨0, 0⟩
      (Key.digit 2)).resolves = some (200, 1) ∧
    resolvedItem (List.range 10) (moveSelectorStep (fun _ o => o) (List.range 10).length 24
      ⟨0, 0⟩ (Key.digit 0)) = some 9 := by
  have h := digit_jump_selects (fun _ o => o) 24 (List.range 10) ⟨0, 0⟩ 2
    (by decide) (by decide) (by decide)
  refine ⟨⟨by decide, by decide, by decide⟩, h.1, ?_⟩
  rw [(h.2.2.2.2 (by decide)).2]
  decide

/-- Claim C10: with fewer than 10 items, pressing the key 0 changes
nothing: same highlighted index and scroll offset, no redraw, no
resolution, no exit. -/
theorem zero_key_noop (redraw : Nat → Nat → Nat) (numMoves termHeight : Nat)
    (s : SelState) (h : numMoves < 10) :
    moveSelectorStep redraw numMoves termHeight s (Key.digit 0) =
      ⟨s, false, none, false⟩ := by
  simp only [moveSelectorStep]
  rw [if_neg (by omega), if_neg (by omega)]

theorem zero_key_noop_witness :
    3 < 10 ∧
    moveSelectorStep (fun _ o => o) 3 24 ⟨1, 4⟩ (Key.digit 0) =
      ⟨⟨1, 4⟩, false, none, false⟩ :=
  ⟨by decide, zero_key_noop (fun _ o => o) 3 24 ⟨1, 4⟩ (by decide)⟩

/-- Claim C4: the claim asserts exactly `length` total segments even when
current > max.  The code only clamps the ratio below at 0, so a bar for
current = 30, max = 20, length = 20 has 30 filled segments and 0 empty
segments: 30 total, not the 20 the specified clamped formula gives. -/
theorem healthBar_overflow_counterexample :
    (createHealthBar 30 20 20).filled = 30 ∧
    (createHealthBar 30 20 20).empty = 0 ∧
    (createHealthBar 30 20 20).filled + (createHealthBar 30 20 20).empty ≠ 20 ∧
    specHealthBarFilled 30 20 20 = 20 := by
  refine ⟨?_, ?_, ?_, ?_⟩ <;> norm_num [createHealthBar, specHealthBarFilled, round_eq]

/-- Claim C4 (amended): the filled count is
`round(length * max(0, current/max))` (clamped below only); for
0 ≤ current ≤ max the bar has exactly `length` segments and the filled
count is monotone in current; the color tier is low for a ratio at most
0.3, mid for at most 0.6, and high otherwise. -/
theorem healthBar_behavior (current maxHp : ℚ) (length : ℕ) (hm : 0 < maxHp) :
    (createHealthBar current maxHp length).filled =
      round (max 0 (current / maxHp) * (length : ℚ)) ∧
    (0 ≤ current → current ≤ maxHp →
      (createHealthBar current maxHp length).filled +
        (createHealthBar current maxHp length).empty = (length : ℤ) ∧
      0 ≤ (createHealthBar current maxHp length).filled ∧
      (createHealthBar current maxHp length).filled ≤ (length : ℤ)) ∧
    (∀ c2 : ℚ, current ≤ c2 →
      (createHealthBar current maxHp length).filled ≤
        (createHealthBar c2 maxHp length).filled) ∧
    ((createHealthBar current maxHp length).tier = HealthTier.low ↔
      current / maxHp ≤ 3/10) ∧
    ((createHealthBar current maxHp length).tier = HealthTier.mid ↔
      3/10 < current / maxHp ∧ current / maxHp ≤ 6/10) ∧
    ((createHealthBar current maxHp length).tier = HealthTier.high ↔
      6/10 < current / maxHp) := by
  have hfill : (createHealthBar current maxHp length).filled =
      round (max 0 (current / maxHp) * (length : ℚ)) := rfl
  have hnonneg : ∀ c : ℚ, (0 : ℤ) ≤ round (max 0 (c / maxHp) * (length : ℚ)) := by
    intro c
    have h0 : (0 : ℚ) ≤ max 0 (c / maxHp) * (length : ℚ) :=
      mul_nonneg (le_max_left 0 _) (by positivity)
    calc (0 : ℤ) = round (0 : ℚ) := (round_zero).symm
      _ ≤ _ := roundMonotone h0
  refine ⟨hfill, ?_, ?_, ?_, ?_, ?_⟩
  · intro hc0 hcm
    have hratio : current / maxHp ≤ 1 := (div_le_one hm).mpr hcm
    have hperc : max 0 (current / maxHp) ≤ 1 := max_le (by norm_num) hratio
    have hmul : max 0 (current / maxHp) * (length : ℚ) ≤ (length : ℚ) := by
      calc max 0 (current / maxHp) * (length : ℚ) ≤ 1 * (length : ℚ) :=
            mul_le_mul_of_nonneg_right hperc (by positivity)
        _ = (length : ℚ) := one_mul _
    have hle : (createHealthBar current maxHp length).filled ≤ (length : ℤ) := by
      rw [hfill]
      calc round (max 0 (current / maxHp) * (length : ℚ)) ≤ round ((length : ℚ)) :=
            roundMonotone hmul
        _ = (length : ℤ) := by rw [round_natCast]
    have hge : 0 ≤ (createHealthBar current maxHp length).filled := by
      rw [hfill]; exact hnonneg current
    refine ⟨?_, hge, hle⟩
    have hempty : (createHealthBar current maxHp length).empty =
        (length : ℤ) - (createHealthBar current maxHp length).filled := by
      show max 0 ((length : ℤ) - (createHealthBar current maxHp length).filled) = _
      exact max_eq_right (by omega)
    omega
  · intro c2 hc
    rw [hfill]
    show _ ≤ round (max 0 (c2 / maxHp) * (length : ℚ))
    refine roundMonotone (mul_le_mul_of_nonneg_right ?_ (by positivity))
    exact max_le_max le_rfl ((div_le_div_iff_of_pos_right hm).mpr hc)
  all_goals
    have hmax3 : max 0 (current / maxHp) ≤ 3/10 ↔ current / maxHp ≤ 3/10 := by
      rw [max_le_iff]
      exact ⟨fun h => h.2, fun h => ⟨by norm_num, h⟩⟩
  all_goals
    have hmax6 : max 0 (current / maxHp) ≤ 6/10 ↔ current / maxHp ≤ 6/10 := by
      rw [max_le_iff]
      exact ⟨fun h => h.2, fun h => ⟨by norm_num, h⟩⟩
  all_goals
    have htier : (createHealthBar current maxHp length).tier =
        (if max 0 (current / maxHp) ≤ 3/10 then HealthTier.low
         else if max 0 (current / maxHp) ≤ 6/10 then HealthTier.mid
         else HealthTier.high) := rfl
  all_goals rw [htier]
  · by_cases h3 : max 0 (current / maxHp) ≤ 3/10
    · rw [if_pos h3]
      simp [hmax3.mp h3]
    · rw [if_neg h3]
      have hr3 : ¬ current / maxHp ≤ 3/10 := fun hh => h3 (hmax3.mpr hh)
      split <;> simp [hr3]
  · by_cases h3 : max 0 (current / maxHp) ≤ 3/10
    · rw [if_pos h3]
      have hr3 := hmax3.mp h3
      constructor
      · intro hcon
        cases hcon
      · rintro ⟨ha, _⟩
        exact absurd hr3 (not_le.mpr ha)
    · rw [if_neg h3]
      have hr3 : 3/10 < current / maxHp := not_le.mp (fun hh => h3 (hmax3.mpr hh))
      by_cases h6 : max 0 (current / maxHp) ≤ 6/10
      · rw [if_pos h6]
        simp [hr3, hmax6.mp h6]
      · rw [if_neg h6]
        constructor
        · intro hcon
          cases hcon
        · rintro ⟨_, hb⟩
          exact absurd (hmax6.mpr hb) h6
  · by_cases h3 : max 0 (current / maxHp) ≤ 3/10
    · rw [if_pos h3]
      have hr3 := hmax3.mp h3
      constructor
      · intro hcon
        cases hcon
      · intro hb
        linarith
    · rw [if_neg h3]
      by_cases h6 : max 0 (current / maxHp) ≤ 6/10
      · rw [if_pos h6]
        have hr6 := hmax6.mp h6
        constructor
        · intro hcon
          cases hcon
        · intro hb
          linarith
      · rw [if_neg h6]
        have hr6 : 6/10 < current / maxHp := not_le.mp (fun hh => h6 (hmax6.mpr hh))
        simp [hr6]

theorem healthBar_behavior_witness :
    (0 : ℚ) < 20 ∧
    (createHealthBar 10 20 20).filled =
      round (max 0 ((10 : ℚ) / 20) * ((20 : ℕ) : ℚ)) :=
  ⟨by decide, (healthBar_behavior 10 20 20 (by decide)).1⟩

/-! ## Bonus summary (src/lib/display/gameDisplay.js lines 189-205)

`getBonusSummary` receives `nextRoundBonus`, an array of plain objects
mapping bonus types to amounts.  Objects are embedded as association
lists in key order with unique keys, amounts as the integers produced by
`parseInt(...) || 0`.  The accumulating object `bonuses` is embedded as
an association list in first-seen-key order; `bonuses[key] =
(bonuses[key] || 0) + amount` becomes `addBonus`. -/

def addBonus : List (String × Int) → String → Int → List (String × Int)
  | [], k, a => [(k, a)]
  | (k0, v) :: rest, k, a =>
      if k0 = k then (k0, v + a) :: rest else (k0, v) :: addBonus rest k a

/-- One iteration of the inner `for (const key in bonusObj)` loop body:
the amount is accumulated only when it is nonzero. -/
def bonusStep (acc : List (String × Int)) (e : String × Int) : List (String × Int) :=
  if e.2 ≠ 0 then addBonus acc e.1 e.2 else acc

/-- `GameDisplay.getBonusSummary(nextRoundBonus)`: returns `none` for an
empty input array, otherwise folds every entry of every bonus object into
`bonuses` and returns `none` exactly when `bonuses` has no keys. -/
def getBonusSummary (nextRoundBonus : List (List (String × Int))) :
    Option (List (String × Int)) :=
  if nextRoundBonus.isEmpty then none
  else
    let bonuses := nextRoundBonus.foldl (fun acc obj => obj.foldl bonusStep acc) []
    if bonuses.isEmpty then none else some bonuses

/-- The total amount an association list carries for a key (summing every
entry whose key matches). -/
def amountOf (l : List (String × Int)) (k : String) : Int :=
  ((l.filter (fun p => p.1 = k)).map Prod.snd).sum

theorem amountOf_nil (k : String) : amountOf [] k = 0 := rfl

theorem amountOf_cons (e : String × Int) (l : List (String × Int)) (k : String) :
    amountOf (e :: l) k = (if e.1 = k then e.2 else 0) + amountOf l k := by
  by_cases h : e.1 = k <;> simp [amountOf, List.filter_cons, h]

theorem amountOf_append (l1 l2 : List (String × Int)) (k : String) :
    amountOf (l1 ++ l2) k = amountOf l1 k + amountOf l2 k := by
  simp [amountOf, List.filter_append]

theorem amountOf_addBonus (b : List (String × Int)) (k0 : String) (a : Int) (k : String) :
    amountOf (addBonus b k0 a) k = amountOf b k + (if k0 = k then a else 0) := by
  induction b with
  | nil => by_cases h : k0 = k <;> simp [addBonus, amountOf_cons, amountOf_nil, h]
  | cons e rest ih =>
      obtain ⟨k1, v⟩ := e
      by_cases h1 : k1 = k0
      · subst h1
        have hstep : addBonus ((k1, v) :: rest) k1 a = (k1, v + a) :: rest := by
          simp [addBonus]
        rw [hstep, amountOf_cons, amountOf_cons]
        by_cases h : k1 = k
        · simp only [if_pos h]
          ring
        · simp only [if_neg h]
          ring
      · have hstep : addBonus ((k1, v) :: rest) k0 a = (k1, v) :: addBonus rest k0 a := by
          simp [addBonus, h1]
        rw [hstep, amountOf_cons, amountOf_cons, ih]
        ring

theorem amountOf_bonusStep (acc : List (String × Int)) (e : String × Int) (k : String) :
    amountOf (bonusStep acc e) k = amountOf acc k + (if e.1 = k then e.2 else 0) := by
  by_cases hz : e.2 ≠ 0
  · simp [bonusStep, hz, amountOf_addBonus]
  · push_neg at hz
    by_cases h : e.1 = k <;> simp [bonusStep, h, hz]

theorem amountOf_foldl_obj (obj : List (String × Int)) (acc : List (String × Int))
    (k : String) :
    amountOf (obj.foldl bonusStep acc) k = amountOf acc k + amountOf obj k := by
  induction obj generalizing acc with
  | nil => simp [amountOf_nil]
  | cons e rest ih =>
      rw [List.foldl_cons, ih, amountOf_bonusStep, amountOf_cons]
      ring

theorem amountOf_foldl_objs (l : List (List (String × Int)))
    (acc : List (String × Int)) (k : String) :
    amountOf (l.foldl (fun acc obj => obj.foldl bonusStep acc) acc) k =
      amountOf acc k + amountOf (l.flatMap id) k := by
  induction l generalizing acc with
  | nil => simp [amountOf_nil]
  | cons obj rest ih =>
      rw [List.foldl_cons, ih, amountOf_foldl_obj, List.flatMap_cons, amountOf_append]
      simp [amountOf_foldl_obj]
      ring

/-- Key membership after `addBonus`. -/
theorem mem_keys_addBonus (b : List (String × Int)) (k0 : String) (a : Int) (k : String) :
    (k ∈ (addBonus b k0 a).map Prod.fst) ↔ (k ∈ b.map Prod.fst ∨ k = k0) := by
  induction b with
  | nil => simp [addBonus, eq_comm]
  | cons e rest ih =>
      obtain ⟨k1, v⟩ := e
      by_cases h1 : k1 = k0
      · subst h1
        have hstep : addBonus ((k1, v) :: rest) k1 a = (k1, v + a) :: rest := by
          simp [addBonus]
        rw [hstep]
        simp only [List.map_cons, List.mem_cons]
        tauto
      · have hstep : addBonus ((k1, v) :: rest) k0 a = (k1, v) :: addBonus rest k0 a := by
          simp [addBonus, h1]
        rw [hstep]
        simp only [List.map_cons, List.mem_cons, ih]
        tauto

/-- Key membership after one `bonusStep`. -/
theorem mem_keys_bonusStep (acc : List (String × Int)) (e : String × Int) (k : String) :
    (k ∈ (bonusStep acc e).map Prod.fst) ↔
      (k ∈ acc.map Prod.fst ∨ (e.1 = k ∧ e.2 ≠ 0)) := by
  by_cases hz : e.2 ≠ 0
  · simp only [bonusStep, if_pos hz, mem_keys_addBonus, hz]
    tauto
  · simp only [bonusStep, if_neg hz]
    tauto

theorem mem_keys_foldl_obj (obj : List (String × Int)) (acc : List (String × Int))
    (k : String) :
    (k ∈ (obj.foldl bonusStep acc).map Prod.fst) ↔
      (k ∈ acc.map Prod.fst ∨ ∃ e ∈ obj, e.1 = k ∧ e.2 ≠ 0) := by
  induction obj generalizing acc with
  | nil => simp
  | cons e rest ih =>
      rw [List.foldl_cons, ih, mem_keys_bonusStep]
      simp only [List.mem_cons]
      constructor
      · rintro ((h | h) | ⟨e2, he2, hk, hz⟩)
        · exact Or.inl h
        · exact Or.inr ⟨e, Or.inl rfl, h⟩
        · exact Or.inr ⟨e2, Or.inr he2, hk, hz⟩
      · rintro (h | ⟨e2, (rfl | he2), hk, hz⟩)
        · exact Or.inl (Or.inl h)
        · exact Or.inl (Or.inr ⟨hk, hz⟩)
        · exact Or.inr ⟨e2, he2, hk, hz⟩

theorem mem_keys_foldl_objs (l : List (List (String × Int)))
    (acc : List (String × Int)) (k : String) :
    (k ∈ (l.foldl (fun acc obj => obj.foldl bonusStep acc) acc).map Prod.fst) ↔
      (k ∈ acc.map Prod.fst ∨ ∃ e ∈ l.flatMap id, e.1 = k ∧ e.2 ≠ 0) := by
  induction l generalizing acc with
  | nil => simp
  | cons obj rest ih =>
      rw [List.foldl_cons, ih, mem_keys_foldl_obj]
      simp only [List.flatMap_cons, List.mem_append, id]
      constructor
      · rintro ((h | ⟨e, he, hk, hz⟩) | ⟨e, he, hk, hz⟩)
        · exact Or.inl h
        · exact Or.inr ⟨e, Or.inl he, hk, hz⟩
        · exact Or.inr ⟨e, Or.inr he, hk, hz⟩
      · rintro (h | ⟨e, (he | he), hk, hz⟩)
        · exact Or.inl (Or.inl h)
        · exact Or.inl (Or.inr ⟨e, he, hk, hz⟩)
        · exact Or.inr ⟨e, he, hk, hz⟩

/-- `addBonus` never returns an empty list. -/
theorem addBonus_ne_nil (b : List (String × Int)) (k : String) (a : Int) :
    addBonus b k a ≠ [] := by
  cases b with
  | nil => simp [addBonus]
  | cons e rest =>
      obtain ⟨k1, v⟩ := e
      by_cases h : k1 = k <;> simp [addBonus, h]

theorem foldl_bonusStep_eq_nil (obj : List (String × Int)) (acc : List (String × Int)) :
    obj.foldl bonusStep acc = [] ↔ (acc = [] ∧ ∀ e ∈ obj, e.2 = 0) := by
  induction obj generalizing acc with
  | nil => simp
  | cons e rest ih =>
      rw [List.foldl_cons, ih]
      by_cases hz : e.2 = 0
      · have hb : bonusStep acc e = acc := by simp [bonusStep, hz]
        rw [hb]
        constructor
        · rintro ⟨h, hall⟩
          refine ⟨h, fun e2 he2 => ?_⟩
          rcases List.mem_cons.mp he2 with rfl | he2
          · exact hz
          · exact hall e2 he2
        · rintro ⟨h, hall⟩
          exact ⟨h, fun e2 he2 => hall e2 (List.mem_cons_of_mem e he2)⟩
      · have hb : bonusStep acc e = addBonus acc e.1 e.2 := by simp [bonusStep, hz]
        rw [hb]
        constructor
        · rintro ⟨h, _⟩
          exact absurd h (addBonus_ne_nil acc e.1 e.2)
        · rintro ⟨_, hall⟩
          exact absurd (hall e (List.mem_cons_self e rest)) hz

theorem foldl_objs_eq_nil (l : List (List (String × Int))) (acc : List (String × Int)) :
    l.foldl (fun acc obj => obj.foldl bonusStep acc) acc = [] ↔
      (acc = [] ∧ ∀ e ∈ l.flatMap id, e.2 = 0) := by
  induction l generalizing acc with
  | nil => simp
  | cons obj rest ih =>
      rw [List.foldl_cons, ih, foldl_bonusStep_eq_nil]
      simp only [List.flatMap_cons, List.mem_append, id]
      constructor
      · rintro ⟨⟨h, hobj⟩, hrest⟩
        refine ⟨h, fun e he => ?_⟩
        rcases he with he | he
        · exact hobj e he
        · exact hrest e he
      · rintro ⟨h, hall⟩
        exact ⟨⟨h, fun e he => hall e (Or.inl he)⟩, fun e he => hall e (Or.inr he)⟩

/-- Claim C3: the claim asserts that a type whose entries cancel to zero
is omitted and that the summary is null when no type has a non-zero sum.
The code filters zero entries individually, so the input
`[{A: 2}, {A: -2}]` produces the non-null summary `{A: 0}`: the type A
remains with summed amount 0 and the result is not null. -/
theorem bonusSummary_cancellation_counterexample :
    getBonusSummary [[("A", 2)], [("A", -2)]] = some [("A", 0)] ∧
    getBonusSummary [[("A", 2)], [("A", -2)]] ≠ none ∧
    amountOf [("A", 0)] "A" = 0 ∧
    "A" ∈ [("A", (0 : Int))].map Prod.fst := by
  have h0 : getBonusSummary [[("A", 2)], [("A", -2)]] = some [("A", 0)] := rfl
  refine ⟨h0, ?_, rfl, by simp⟩
  rw [h0]
  exact Option.some_ne_none _

/-- Claim C3 (amended): `getBonusSummary` sums amounts per type — every
key of the result carries exactly the input's total for that key, and
the totals are independent of the order in which the entries arrive —
but a type is kept in the result exactly when it has at least one
individually non-zero entry (so a type whose entries cancel shows up
with total 0), and the result is null exactly when the input array is
empty or every single entry is zero. -/
theorem bonusSummary_totals (l : List (List (String × Int)))
    (b : List (String × Int)) (hb : getBonusSummary l = some b) :
    (∀ k, amountOf b k = amountOf (l.flatMap id) k) ∧
    (∀ k, k ∈ b.map Prod.fst ↔ ∃ e ∈ l.flatMap id, e.1 = k ∧ e.2 ≠ 0) ∧
    (∀ l2 b2, getBonusSummary l2 = some b2 →
      (l.flatMap id).Perm (l2.flatMap id) → ∀ k, amountOf b k = amountOf b2 k) ∧
    (∀ l3, getBonusSummary l3 = none ↔ (l3 = [] ∨ ∀ e ∈ l3.flatMap id, e.2 = 0)) := by
  have hsome : ∀ (lx : List (List (String × Int))) (bx : List (String × Int)),
      getBonusSummary lx = some bx →
      bx = lx.foldl (fun acc obj => obj.foldl bonusStep acc) [] := by
    intro lx bx hx
    unfold getBonusSummary at hx
    by_cases h1 : lx.isEmpty
    · simp [h1] at hx
    · simp only [h1, if_neg, Bool.false_eq_true, not_false_eq_true] at hx
      by_cases h2 : (lx.foldl (fun acc obj => obj.foldl bonusStep acc) []).isEmpty
      · simp [h2] at hx
      · simp [h2] at hx
        exact hx.symm
  have hbval := hsome l b hb
  have htotal : ∀ k, amountOf b k = amountOf (l.flatMap id) k := by
    intro k
    rw [hbval, amountOf_foldl_objs, amountOf_nil, zero_add]
  have hperm_amount : ∀ (e1 e2 : List (String × Int)), e1.Perm e2 →
      ∀ k, amountOf e1 k = amountOf e2 k := by
    intro e1 e2 hp k
    exact List.Perm.sum_eq ((hp.filter _).map Prod.snd)
  refine ⟨htotal, ?_, ?_, ?_⟩
  · intro k
    rw [hbval, mem_keys_foldl_objs]
    simp
  · intro l2 b2 hb2 hp k
    have htotal2 := (hsome l2 b2 hb2)
    rw [htotal k, hperm_amount _ _ hp k]
    rw [htotal2, amountOf_foldl_objs, amountOf_nil, zero_add]
  · intro l3
    unfold getBonusSummary
    by_cases h1 : l3.isEmpty
    · simp [h1, List.isEmpty_iff.mp h1]
    · simp only [h1, Bool.false_eq_true, if_false]
      by_cases h2 : (l3.foldl (fun acc obj => obj.foldl bonusStep acc) []).isEmpty
      · simp only [h2, if_true]
        have := (foldl_objs_eq_nil l3 []).mp (List.isEmpty_iff.mp h2)
        simp only [true_iff]
        exact Or.inr this.2
      · simp only [h2, Bool.false_eq_true, if_false]
        constructor
        · intro hx
          cases hx
        · rintro (rfl | hall)
          · simp at h1
          · exact absurd (List.isEmpty_iff.mpr
              ((foldl_objs_eq_nil l3 []).mpr ⟨rfl, hall⟩)) (by simp [h2])

theorem bonusSummary_totals_witness :
    getBonusSummary [[("A", 2), ("B", 1)], [("A", 3)]] =
      some [("A", 5), ("B", 1)] ∧
    amountOf [("A", 5), ("B", 1)] "A" =
      amountOf ([[("A", (2 : Int)), ("B", 1)], [("A", 3)]].flatMap id) "A" := by
  refine ⟨rfl, ?_⟩
  have h := bonusSummary_totals [[("A", 2), ("B", 1)], [("A", 3)]]
    [("A", 5), ("B", 1)] rfl
  exact h.1 "A"

/-! ## Setup event handling (src/lib/game/gameEventHandler.js)

The file holds two variants of `GameEventHandler`.  In the legacy
variant (`handleSetup`, lines 47-60) a setup event arriving after the
initial setup still requests the move prompt; in the multiplayer-aware
variant (`handleSetup`, lines 596-617) it returns early and requests
nothing.  Each handler is embedded as a function from the
`initialSetupComplete` flag to the new flag value paired with whether
`promptForMovesDisplay` is requested. -/

structure SetupState where
  initialSetupComplete : Bool
deriving DecidableEq

/-- Legacy `GameEventHandler.handleSetup` (lines 47-60): both branches
call `this.cli.promptForMovesDisplay()`. -/
def handleSetupLegacy (s : SetupState) : SetupState × Bool :=
  if s.initialSetupComplete then (s, true)
  else ({ initialSetupComplete := true }, true)

/-- Multiplayer-aware `GameEventHandler.handleSetup` (lines 596-617):
when `initialSetupComplete` is already set the handler logs and returns
without scheduling the prompt; otherwise it sets the flag and schedules
`promptForMovesDisplay` after a 500 ms delay. -/
def handleSetupMultiplayer (s : SetupState) : SetupState × Bool :=
  if s.initialSetupComplete then (s, false)
  else ({ initialSetupComplete := true }, true)

/-- Claim C2: the claim asserts every post-initial setup event still
requests the move prompt.  The multiplayer-aware handler does not: with
the flag already set it returns early and no prompt is requested. -/
theorem duplicateSetup_counterexample :
    handleSetupMultiplayer ⟨true⟩ = (⟨true⟩, false) ∧
    ¬ (handleSetupMultiplayer ⟨true⟩).2 = true := by
  decide

/-- Claim C2 (amended): a setup event arriving when
`initialSetupComplete` is already true never re-triggers the
initial-phase transition (the flag and state are unchanged in both
handler variants); the legacy handler still requests the move prompt,
while the multiplayer-aware handler ignores the event entirely and
requests no prompt. -/
theorem duplicateSetup_behavior (s : SetupState) (h : s.initialSetupComplete = true) :
    handleSetupLegacy s = (s, true) ∧
    handleSetupMultiplayer s = (s, false) ∧
    (handleSetupLegacy s).1.initialSetupComplete = true ∧
    (handleSetupMultiplayer s).1.initialSetupComplete = true := by
  simp [handleSetupLegacy, handleSetupMultiplayer, h]

theorem duplicateSetup_behavior_witness :
    (⟨true⟩ : SetupState).initialSetupComplete = true ∧
    handleSetupLegacy ⟨true⟩ = (⟨true⟩, true) :=
  ⟨rfl, (duplicateSetup_behavior ⟨true⟩ rfl).1⟩

/-! ## Duplicate-move suppression
(src/lib/game/gameEventHandler.js lines 623-646, 948-993)

`handleMyMove` of the multiplayer-aware variant tracks
`lastProcessedMoveId`; `handleRound` resets it to null.  Console output
relevant to the claim is reified: the "Processing:" line and the
duplicate-ignored debug line. -/

inductive HandlerMsg where
  | processing (id : Nat)
  | duplicateIgnored (id : Nat)
deriving DecidableEq

structure MyMoveState where
  lastProcessedMoveId : Option Nat
deriving DecidableEq

/-- `GameEventHandler.handleMyMove(event)` (lines 948-963): a move id
equal to the last processed one is ignored; otherwise the tracker is
updated and, when the id names a move of the character, the
"Processing" message is printed. -/
def handleMyMove (moves : List Nat) (st : MyMoveState) (moveId : Nat) :
    MyMoveState × List HandlerMsg :=
  if st.lastProcessedMoveId = some moveId then
    (st, [HandlerMsg.duplicateIgnored moveId])
  else
    let st2 : MyMoveState := ⟨some moveId⟩
    if moves.contains moveId then (st2, [HandlerMsg.processing moveId])
    else (st2, [])

/-- The tracker reset performed by `GameEventHandler.handleRound`
(line 630): `this.lastProcessedMoveId = null`. -/
def handleRoundReset (_st : MyMoveState) : MyMoveState :=
  ⟨none⟩

def processingCount (msgs : List HandlerMsg) : Nat :=
  (msgs.filter (fun m => match m with
    | HandlerMsg.processing _ => true
    | _ => false)).length

/-- Claim C5: delivering the same myMove id twice in succession prints
exactly one "Processing" message — the second delivery is suppressed
because the id equals the tracked last processed id — and handling a
round event resets the tracker to null. -/
theorem duplicateMyMove_suppressed (moves : List Nat) (st : MyMoveState) (moveId : Nat)
    (hfresh : st.lastProcessedMoveId ≠ some moveId)
    (hmem : moves.contains moveId = true) :
    processingCount (handleMyMove moves st moveId).2 = 1 ∧
    (handleMyMove moves st moveId).1.lastProcessedMoveId = some moveId ∧
    processingCount (handleMyMove moves (handleMyMove moves st moveId).1 moveId).2 = 0 ∧
    processingCount ((handleMyMove moves st moveId).2 ++
      (handleMyMove moves (handleMyMove moves st moveId).1 moveId).2) = 1 ∧
    (handleRoundReset
      (handleMyMove moves (handleMyMove moves st moveId).1 moveId).1).lastProcessedMoveId
      = none := by
  have hmem2 : moveId ∈ moves := by simpa using hmem
  have h1 : handleMyMove moves st moveId = (⟨some moveId⟩, [HandlerMsg.processing moveId]) := by
    simp [handleMyMove, hfresh, hmem2]
  have h2 : handleMyMove moves (⟨some moveId⟩ : MyMoveState) moveId =
      ((⟨some moveId⟩ : MyMoveState), [HandlerMsg.duplicateIgnored moveId]) := by
    simp [handleMyMove]
  rw [h1]
  simp only [h2]
  simp [processingCount, handleRoundReset]

theorem duplicateMyMove_suppressed_witness :
    ((⟨none⟩ : MyMoveState).lastProcessedMoveId ≠ some 7 ∧
      [5, 7, 9].contains 7 = true) ∧
    processingCount ((handleMyMove [5, 7, 9] ⟨none⟩ 7).2 ++
      (handleMyMove [5, 7, 9] (handleMyMove [5, 7, 9] ⟨none⟩ 7).1 7).2) = 1 := by
  have h := duplicateMyMove_suppressed [5, 7, 9] ⟨none⟩ 7 (by decide) (by decide)
  exact ⟨⟨by decide, by decide⟩, h.2.2.2.1⟩

/-! ## Move-prompt mutual exclusion (src/bin/swordfight.js lines 198-252)

`promptForMovesDisplay` and `showAvailableMoves` of `CLIFrontend` both
begin with a `waitingForMove` guard; `showAvailableMoves` sets the flag
before awaiting the selector and clears it after dispatching the chosen
move or catching a selection error. -/

structure PromptState where
  waitingForMove : Bool
  movesAvailable : Bool
deriving DecidableEq

inductive PromptAction where
  | skippedLogged
  | noMovesError
  | promptOpened
deriving DecidableEq

/-- `CLIFrontend.showAvailableMoves` (lines 215-252) up to the point the
selector is awaited: guard on `waitingForMove`, guard on an available
move list, then set `waitingForMove` and open the prompt. -/
def showAvailableMoves (st : PromptState) : PromptState × PromptAction :=
  if st.waitingForMove then (st, PromptAction.skippedLogged)
  else if !st.movesAvailable then (st, PromptAction.noMovesError)
  else ({ st with waitingForMove := true }, PromptAction.promptOpened)

/-- `CLIFrontend.promptForMovesDisplay` (lines 198-209): its own
`waitingForMove` guard, then (after Enter) `showAvailableMoves`. -/
def promptForMovesDisplay (st : PromptState) : PromptState × PromptAction :=
  if st.waitingForMove then (st, PromptAction.skippedLogged)
  else showAvailableMoves st

/-- Completion of the awaited selection (lines 236-251): both the
dispatch path and the catch path set `waitingForMove = false`. -/
def finishMoveSelection (st : PromptState) (_succeeded : Bool) : PromptState :=
  { st with waitingForMove := false }

/-- Claim C9: while `waitingForMove` is true, both prompt entry points
are logged no-ops that leave the state unchanged (no second prompt is
opened and nothing is queued), and completing a selection — whether the
move is dispatched or selection errors — always clears
`waitingForMove`. -/
theorem movePrompt_mutual_exclusion (st : PromptState) (h : st.waitingForMove = true) :
    promptForMovesDisplay st = (st, PromptAction.skippedLogged) ∧
    showAvailableMoves st = (st, PromptAction.skippedLogged) ∧
    (∀ st2 : PromptState, ∀ ok : Bool,
      (finishMoveSelection st2 ok).waitingForMove = false) ∧
    (∀ st3 : PromptState, (showAvailableMoves st3).2 = PromptAction.promptOpened →
      (showAvailableMoves st3).1.waitingForMove = true ∧ st3.waitingForMove = false) := by
  refine ⟨?_, ?_, fun st2 ok => rfl, ?_⟩
  · simp [promptForMovesDisplay, h]
  · simp [showAvailableMoves, h]
  · intro st3 hopen
    unfold showAvailableMoves at hopen ⊢
    by_cases h1 : st3.waitingForMove
    · simp [h1] at hopen
    · by_cases h2 : st3.movesAvailable <;> simp_all

theorem movePrompt_mutual_exclusion_witness :
    (⟨true, true⟩ : PromptState).waitingForMove = true ∧
    promptForMovesDisplay ⟨true, true⟩ = (⟨true, true⟩, PromptAction.skippedLogged) :=
  ⟨rfl, (movePrompt_mutual_exclusion ⟨true, true⟩ rfl).1⟩

/-! ## Room identifier generation
(src/unnamed multiplayer handler, `createRoom`)

`Math.random().toString(36).slice(-5).toUpperCase()`.  The random double
lies in [0, 1) and is a dyadic rational, so its base-36 expansion is
finite; it is embedded as an exact rational.  `toString(36)` for such a
value prints `"0"` when the value is zero and otherwise `"0."` followed
by the base-36 fraction digits; the digit extraction is given fuel 64,
more than the at most 27 digits a 53-bit fraction can produce.  Strings
are modelled as character lists. -/

def base36DigitChar (d : Nat) : Char :=
  if d < 10 then Char.ofNat (48 + d) else Char.ofNat (87 + d)

/-- Base-36 fraction digits of `num / den`, most significant first,
stopping when the remainder vanishes or the fuel runs out. -/
def base36FracDigits : Nat → Nat → Nat → List Nat
  | 0, _, _ => []
  | fuel + 1, num, den =>
      if num = 0 then []
      else (num * 36) / den :: base36FracDigits fuel ((num * 36) % den) den

/-- `Number.prototype.toString(36)` for a value in [0, 1) with a finite
base-36 expansion. -/
def jsNumberToString36 (q : ℚ) : List Char :=
  let digits := base36FracDigits 64 q.num.toNat q.den
  if digits.isEmpty then ['0']
  else '0' :: '.' :: digits.map base36DigitChar

/-- `String.prototype.slice(-5)`: the last five characters, or the whole
string when it is shorter. -/
def jsSliceLast5 (s : List Char) : List Char :=
  s.drop (s.length - 5)

def jsToUpperCase (s : List Char) : List Char :=
  s.map Char.toUpper

/-- `MultiplayerHandler.createRoom`: the generated room id
`Math.random().toString(36).slice(-5).toUpperCase()` as a function of
the value returned by the random source. -/
def createRoomId (randomValue : ℚ) : List Char :=
  jsToUpperCase (jsSliceLast5 (jsNumberToString36 randomValue))

def isUpperAlnumChar (c : Char) : Bool :=
  (65 ≤ c.toNat && c.toNat ≤ 90) || (48 ≤ c.toNat && c.toNat ≤ 57)

/-- Evaluation helper: `toString(36)` once the numerator and denominator
of the rational are known concrete naturals. -/
theorem jsNumberToString36_eq (q : ℚ) (n d : Nat) (hn : q.num = (n : ℤ)) (hd : q.den = d) :
    jsNumberToString36 q =
      (if (base36FracDigits 64 n d).isEmpty then ['0']
       else '0' :: '.' :: (base36FracDigits 64 n d).map base36DigitChar) := by
  rw [jsNumberToString36, hn, hd]
  simp

/-- Claim C7: the claim asserts every generated room id has exactly 5
uppercase alphanumeric characters, for every value of the random source.
The double 0.25 (a possible `Math.random()` value) has base-36
representation "0.9", so the id is the 3-character string "0.9", which
also contains a dot. -/
theorem roomId_counterexample :
    createRoomId (1/4) = ['0', '.', '9'] ∧
    (createRoomId (1/4)).length = 3 ∧
    ¬ ((createRoomId (1/4)).length = 5 ∧
       ∀ c ∈ createRoomId (1/4), isUpperAlnumChar c = true) := by
  have hstr : jsNumberToString36 (1/4) = ['0', '.', '9'] := by
    rw [jsNumberToString36_eq (1/4) 1 4 (by norm_num) (by norm_num)]
    decide
  have hid : createRoomId (1/4) = ['0', '.', '9'] := by
    rw [createRoomId, hstr]
    decide
  refine ⟨hid, by rw [hid]; rfl, ?_⟩
  rintro ⟨h5, _⟩
  rw [hid] at h5
  cases h5

/-- Every digit produced for `num / den` with `num < den` is below 36. -/
theorem base36FracDigits_lt (fuel : Nat) :
    ∀ num den : Nat, 0 < den → num < den →
      ∀ d ∈ base36FracDigits fuel num den, d < 36 := by
  induction fuel with
  | zero =>
      intro num den _ _ d hd
      simp [base36FracDigits] at hd
  | succ n ih =>
      intro num den hden hnum d hd
      rw [base36FracDigits] at hd
      by_cases h0 : num = 0
      · simp [h0] at hd
      · rw [if_neg h0] at hd
        rcases List.mem_cons.mp hd with rfl | hd
        · rw [Nat.div_lt_iff_lt_mul hden]
          omega
        · exact ih ((num * 36) % den) den hden (Nat.mod_lt _ hden) d hd

/-- A base-36 digit below 36, uppercased, is an uppercase letter or a
decimal digit. -/
theorem upper_base36_alnum :
    ∀ d : Nat, d < 36 → isUpperAlnumChar (Char.toUpper (base36DigitChar d)) = true := by
  decide

/-- Claim C7 (amended): the room id is the uppercased last-at-most-5
characters of the base-36 representation of the random value; whenever
that representation has at least 5 fraction digits — which holds for
all but degenerate random values — the id has exactly 5 characters,
each an uppercase letter or digit. -/
theorem roomId_shape (q : ℚ) (h0 : 0 ≤ q) (h1 : q < 1)
    (hlen : 5 ≤ (base36FracDigits 64 q.num.toNat q.den).length) :
    (createRoomId q).length = 5 ∧
    ∀ c ∈ createRoomId q, isUpperAlnumChar c = true := by
  set ds := base36FracDigits 64 q.num.toNat q.den with hds
  have hden : 0 < q.den := q.den_pos
  have hnum : q.num.toNat < q.den := by
    have hlt : q.num < (q.den : ℤ) := Rat.lt_one_iff_num_lt_denom.mp h1
    omega
  have hdig : ∀ d ∈ ds, d < 36 :=
    base36FracDigits_lt 64 q.num.toNat q.den hden hnum
  have hne : ds.isEmpty = false := by
    cases hd : ds with
    | nil => rw [hd] at hlen; simp at hlen
    | cons a l => rfl
  have hstr : jsNumberToString36 q = '0' :: '.' :: ds.map base36DigitChar := by
    rw [jsNumberToString36, ← hds, hne]
    rfl
  have hlength : ('0' :: '.' :: ds.map base36DigitChar).length = ds.length + 2 := by
    simp
  have harith : ds.length + 2 - 5 = (ds.length - 5) + 2 := by omega
  have hslice : jsSliceLast5 ('0' :: '.' :: ds.map base36DigitChar) =
      (ds.map base36DigitChar).drop (ds.length - 5) := by
    rw [jsSliceLast5, hlength, harith]
    rfl
  have hlen5 : ((ds.map base36DigitChar).drop (ds.length - 5)).length = 5 := by
    rw [List.length_drop, List.length_map]
    omega
  constructor
  · rw [createRoomId, hstr, hslice, jsToUpperCase, List.length_map, hlen5]
  · intro c hc
    rw [createRoomId, hstr, hslice, jsToUpperCase] at hc
    obtain ⟨c0, hc0, rfl⟩ := List.mem_map.mp hc
    have hc1 : c0 ∈ ds.map base36DigitChar := List.mem_of_mem_drop hc0
    obtain ⟨d, hd, rfl⟩ := List.mem_map.mp hc1
    exact upper_base36_alnum d (hdig d hd)

theorem roomId_shape_witness :
    ((0 : ℚ) ≤ 1/512 ∧ (1/512 : ℚ) < 1 ∧
      5 ≤ (base36FracDigits 64 (1/512 : ℚ).num.toNat (1/512 : ℚ).den).length) ∧
    (createRoomId (1/512)).length = 5 ∧
    createRoomId (1/512) = ['0', '2', 'J', '4', 'I'] := by
  have hn : (1/512 : ℚ).num = (1 : ℤ) := by norm_num
  have hd : (1/512 : ℚ).den = 512 := by norm_num
  have hlen : 5 ≤ (base36FracDigits 64 (1/512 : ℚ).num.toNat (1/512 : ℚ).den).length := by
    rw [hn, hd]
    decide
  have h := roomId_shape (1/512) (by norm_num) (by norm_num) hlen
  have hstr : jsNumberToString36 (1/512) = ['0', '.', '0', '2', 'j', '4', 'i'] := by
    rw [jsNumberToString36_eq (1/512) 1 512 hn hd]
    decide
  have hid : createRoomId (1/512) = ['0', '2', 'J', '4', 'I'] := by
    rw [createRoomId, hstr]
    decide
  exact ⟨⟨by norm_num, by norm_num, hlen⟩, h.1, hid⟩

/-! ## Non-interactive fallback selection
(src/lib/display/moveSelector.js lines 137-183,
src/lib/display/characterSelector.js lines 57-69)

When `process.stdin.setRawMode` is absent, `selectMove` logs the
fallback notice and returns `orderedMoves[0]` — the first move of
`categorizeMoves`, which groups by tag and sorts the tags — while
`selectCharacter` returns `characters[0]` directly. -/

structure Move where
  id : Nat
  name : String
  tag : String
deriving DecidableEq

/-- Lexicographic comparison of character sequences by code point: the
order `Array.prototype.sort()` applies to the tag strings (UTF-16
code-unit order, which agrees with code-point order on the basic
multilingual plane the tags live in). -/
def jsCharsLe : List Char → List Char → Bool
  | [], _ => true
  | _ :: _, [] => false
  | a :: as, b :: bs =>
      if a.toNat < b.toNat then true
      else if b.toNat < a.toNat then false
      else jsCharsLe as bs

def jsStringLe (a b : String) : Prop :=
  jsCharsLe a.data b.data = true

instance jsStringLe.decRel : DecidableRel jsStringLe :=
  fun a b => instDecidableEqBool (jsCharsLe a.data b.data) true

/-- `MoveSelector.categorizeMoves(availableMoves)` (lines 137-159): group
the moves by tag, sort the tag keys, and concatenate each tag's moves in
their original order. -/
def categorizeMoves (availableMoves : List Move) : List Move :=
  let tagOrder := ((availableMoves.map Move.tag).dedup).insertionSort jsStringLe
  tagOrder.flatMap (fun t => availableMoves.filter (fun m => m.tag = t))

theorem categorizeMoves_eq (availableMoves : List Move) :
    categorizeMoves availableMoves =
      (((availableMoves.map Move.tag).dedup).insertionSort jsStringLe).flatMap
        (fun t => availableMoves.filter (fun m => m.tag = t)) := rfl

structure FallbackOutcome (α : Type) where
  selected : Option α
  loggedFallback : Bool
deriving DecidableEq

/-- The non-TTY branch of `MoveSelector.selectMove` (lines 173-180):
log the "Non-interactive mode" notice and auto-select
`orderedMoves[0]`. -/
def selectMoveFallback (availableMoves : List Move) : FallbackOutcome Move :=
  ⟨(categorizeMoves availableMoves).head?, true⟩

/-- The non-TTY branch of `CharacterSelector.selectCharacter`
(lines 59-66): log the "Non-interactive mode" notice and auto-select
`characters[0]`. -/
def selectCharacterFallback {α : Type} (characters : List α) : FallbackOutcome α :=
  ⟨characters.head?, true⟩

/-- Claim C8: the claim asserts the fallback resolves with the first
item of the given list.  For moves it resolves with the first item of
the category-sorted display order instead: with input
[X tagged "B", Y tagged "A"] the fallback selects Y, not the list's
first element X. -/
theorem nonTTY_fallback_counterexample :
    (selectMoveFallback [⟨1, "X", "B"⟩, ⟨2, "Y", "A"⟩]).selected = some ⟨2, "Y", "A"⟩ ∧
    [(⟨1, "X", "B"⟩ : Move), ⟨2, "Y", "A"⟩].head? = some ⟨1, "X", "B"⟩ ∧
    (selectMoveFallback [⟨1, "X", "B"⟩, ⟨2, "Y", "A"⟩]).selected ≠
      [(⟨1, "X", "B"⟩ : Move), ⟨2, "Y", "A"⟩].head? := by
  refine ⟨by decide, by decide, ?_⟩
  intro h
  rw [show (selectMoveFallback [⟨1, "X", "B"⟩, ⟨2, "Y", "A"⟩]).selected = some ⟨2, "Y", "A"⟩
    by decide] at h
  simp at h

/-- Claim C8 (amended): with no raw-mode capability and a non-empty item
list, the selection resolves immediately and without error: the
character selector with the first item of its input list, the move
selector with the first item of the category-sorted display order —
always an element of the input list, but not necessarily its first
element. -/
theorem nonTTY_fallback_behavior {α : Type} (availableMoves : List Move)
    (characters : List α) (hm : availableMoves ≠ []) (hc : characters ≠ []) :
    (∃ m, (selectMoveFallback availableMoves).selected = some m ∧ m ∈ availableMoves) ∧
    (selectMoveFallback availableMoves).selected = (categorizeMoves availableMoves).head? ∧
    (selectMoveFallback availableMoves).loggedFallback = true ∧
    (selectCharacterFallback characters).selected = some (characters.head hc) ∧
    (selectCharacterFallback characters).loggedFallback = true := by
  refine ⟨?_, rfl, rfl, List.head?_eq_head hc, rfl⟩
  have hmem0 : availableMoves.head hm ∈ categorizeMoves availableMoves := by
    rw [categorizeMoves_eq]
    refine List.mem_flatMap.mpr ⟨(availableMoves.head hm).tag, ?_, ?_⟩
    · have h1 : (availableMoves.head hm).tag ∈ availableMoves.map Move.tag :=
        List.mem_map_of_mem Move.tag (List.head_mem hm)
      have h2 : (availableMoves.head hm).tag ∈ (availableMoves.map Move.tag).dedup :=
        List.mem_dedup.mpr h1
      exact ((List.perm_insertionSort jsStringLe
        ((availableMoves.map Move.tag).dedup)).mem_iff).mpr h2
    · exact List.mem_filter.mpr ⟨List.head_mem hm, by simp⟩
  have hne : categorizeMoves availableMoves ≠ [] :=
    List.ne_nil_of_mem hmem0
  refine ⟨(categorizeMoves availableMoves).head hne, List.head?_eq_head hne, ?_⟩
  have hsub : ∀ x ∈ categorizeMoves availableMoves, x ∈ availableMoves := by
    intro x hx
    rw [categorizeMoves_eq] at hx
    obtain ⟨t, _, hmf⟩ := List.mem_flatMap.mp hx
    exact List.mem_of_mem_filter hmf
  exact hsub _ (List.head_mem hne)

theorem nonTTY_fallback_behavior_witness :
    (([⟨1, "X", "B"⟩, ⟨2, "Y", "A"⟩] : List Move) ≠ [] ∧
      (["Ann", "Bob"] : List String) ≠ []) ∧
    (selectCharacterFallback ["Ann", "Bob"]).selected = some "Ann" ∧
    (selectMoveFallback [⟨1, "X", "B"⟩, ⟨2, "Y", "A"⟩]).loggedFallback = true := by
  have h := nonTTY_fallback_behavior [⟨1, "X", "B"⟩, ⟨2, "Y", "A"⟩] ["Ann", "Bob"]
    (by decide) (by simp)
  refine ⟨⟨by decide, by simp⟩, ?_, h.2.2.1⟩
  rw [h.2.2.2.1]
  rfl

end Swordfight
